import Mathlib

/-!
Verification of the simple-todo-list service: the todo-collection manager
(create / toggle / edit / delete / complete-all / uncomplete-all), the
storage adapter round-trip, the identifier invariants, and the browser
client's request construction (src/public/app.js).

The server core itself (src/index.js) is not part of the source tree; only
its test suite (src/__tests__/api.test.js) and the browser client are.  The
manager, identifier generator and storage adapter below are therefore
modelled from the specification, with the response messages pinned by the
test suite.  The browser client definitions are translated directly from
src/public/app.js.

Timestamps are modelled as natural numbers supplied by the caller (the
`now` arguments); JavaScript string trimming is modelled by `jsTrim`.
-/

namespace TodoApp

/-- Model of JavaScript whitespace for `String.prototype.trim` (the
characters that actually occur in the repository's inputs). -/
def isJsSpace (c : Char) : Bool :=
  c = ' ' || c = '\t' || c = '\n' || c = '\r'

/-- Model of JavaScript `String.prototype.trim`: drop leading and trailing
whitespace. -/
def jsTrim (s : String) : String :=
  String.mk (((s.data.dropWhile isJsSpace).reverse.dropWhile isJsSpace).reverse)

/-- Modelled from the spec: the TodoItem record (spec section 3).  The server
source (src/index.js) is absent from the repository; field names and types
follow the spec's data-model table. -/
structure TodoItem where
  id : Nat
  text : String
  completed : Bool
  createdAt : Nat
  updatedAt : Option Nat
  deriving Repr, DecidableEq

/-- Modelled from the spec: the error taxonomy of section 7. -/
inductive TodoError where
  | validationError (msg : String)
  | notFoundError (msg : String)
  deriving Repr, DecidableEq

/-- The fixed `NotFoundError` payload ("Todo not found"). -/
def notFoundResult : TodoError := .notFoundError "Todo not found"

/-- The fixed `ValidationError` payload ("Todo text is required"). -/
def validationResult : TodoError := .validationError "Todo text is required"

/-- Modelled from the spec: the Collection Manager's in-memory state, the
ordered sequence of items plus the Identifier Generator counter (spec
sections 4.2 and 4.3, monotonic-counter variant). -/
structure ManagerState where
  todos : List TodoItem
  nextId : Nat
  deriving Repr, DecidableEq

/-- Modelled from the spec: `create(rawText)` (spec section 4.3): trim, reject
empty with ValidationError, otherwise append a fresh item with
`completed=false`, `createdAt=now`, no `updatedAt`. -/
def create (s : ManagerState) (now : Nat) (rawText : String) :
    Except TodoError (TodoItem × ManagerState) :=
  let t := jsTrim rawText
  if t.isEmpty then
    .error validationResult
  else
    let item : TodoItem :=
      { id := s.nextId, text := t, completed := false, createdAt := now,
        updatedAt := none }
    .ok (item, { todos := s.todos ++ [item], nextId := s.nextId + 1 })

/-- In-place update of the first list entry satisfying `p` (the JS code finds
the item object by id and mutates it in place). -/
def updateFirst (p : TodoItem → Bool) (f : TodoItem → TodoItem) :
    List TodoItem → List TodoItem
  | [] => []
  | t :: ts => if p t then f t :: ts else t :: updateFirst p f ts

/-- Modelled from the spec: `toggle(id)` (spec section 4.3): look up by id,
NotFoundError if absent, otherwise flip `completed` in place. -/
def toggle (s : ManagerState) (id : Nat) :
    Except TodoError (TodoItem × ManagerState) :=
  match s.todos.find? (fun t => t.id == id) with
  | none => .error notFoundResult
  | some item =>
      let updated := { item with completed := !item.completed }
      .ok (updated,
        { s with todos := (updateFirst (fun t => t.id == id)
            (fun t => { t with completed := !t.completed }) s.todos) })

/-- Modelled from the spec: `edit(id, rawText)` (spec section 4.3): look up by
id (NotFoundError if absent), validate like create, then set the trimmed
text and `updatedAt=now` in place, leaving `completed` and `id` untouched. -/
def edit (s : ManagerState) (now : Nat) (id : Nat) (rawText : String) :
    Except TodoError (TodoItem × ManagerState) :=
  match s.todos.find? (fun t => t.id == id) with
  | none => .error notFoundResult
  | some item =>
      let t := jsTrim rawText
      if t.isEmpty then .error validationResult
      else
        let updated := { item with text := t, updatedAt := some now }
        .ok (updated,
          { s with todos := (updateFirst (fun u => u.id == id)
              (fun u => { u with text := t, updatedAt := some now }) s.todos) })

/-- Modelled from the spec: `delete(id)` (spec section 4.3): NotFoundError if
absent, otherwise remove the item from the sequence. -/
def deleteTodo (s : ManagerState) (id : Nat) : Except TodoError ManagerState :=
  if s.todos.any (fun t => t.id == id) then
    .ok { s with todos := s.todos.filter (fun t => !(t.id == id)) }
  else
    .error notFoundResult

/-- The `{message, count}` payload of the bulk operations (spec section 4.3). -/
structure BulkResult where
  message : String
  count : Nat
  deriving Repr, DecidableEq

/-- Modelled from the spec: `completeAll()` (spec section 4.3); messages pinned
by src/__tests__/api.test.js lines 312 and 324.  The returned count is the
total number of items, not the number of items flipped: the test at lines
328-348 builds one already-completed and one uncompleted item and expects
count 2, so the program counts all items. -/
def completeAll (s : ManagerState) : BulkResult × ManagerState :=
  if s.todos.isEmpty then
    ({ message := "No todos to complete", count := 0 }, s)
  else
    ({ message := "All todos completed", count := s.todos.length },
     { s with todos := s.todos.map (fun t => { t with completed := true }) })

/-- Modelled from the spec: `uncompleteAll()` (spec section 4.3); messages
pinned by src/__tests__/api.test.js lines 366 and 378.  As with completeAll,
the returned count is the total number of items: the test at lines 382-398
builds one completed and one uncompleted item and expects count 2. -/
def uncompleteAll (s : ManagerState) : BulkResult × ManagerState :=
  if s.todos.isEmpty then
    ({ message := "No todos to uncomplete", count := 0 }, s)
  else
    ({ message := "All todos uncompleted", count := s.todos.length },
     { s with todos := s.todos.map (fun t => { t with completed := false }) })

/-- One request against the manager: every mutating operation of the API. -/
inductive Op where
  | createOp (now : Nat) (rawText : String)
  | toggleOp (id : Nat)
  | editOp (now : Nat) (id : Nat) (rawText : String)
  | deleteOp (id : Nat)
  | completeAllOp
  | uncompleteAllOp
  deriving Repr, DecidableEq

/-- Run one operation against the manager state; a failed operation leaves the
state unchanged (errors are returned to the HTTP layer before any mutation). -/
def applyOp (s : ManagerState) : Op → ManagerState
  | .createOp now raw =>
      match create s now raw with
      | .ok (_, s') => s'
      | .error _ => s
  | .toggleOp id =>
      match toggle s id with
      | .ok (_, s') => s'
      | .error _ => s
  | .editOp now id raw =>
      match edit s now id raw with
      | .ok (_, s') => s'
      | .error _ => s
  | .deleteOp id =>
      match deleteTodo s id with
      | .ok s' => s'
      | .error _ => s
  | .completeAllOp => (completeAll s).2
  | .uncompleteAllOp => (uncompleteAll s).2

/-- Run a sequence of operations left to right. -/
def applyOps (s : ManagerState) (ops : List Op) : ManagerState :=
  ops.foldl applyOp s

/-- The manager state at process start: empty collection, the Identifier
Generator seeded with an arbitrary counter value. -/
def initState (seed : Nat) : ManagerState :=
  { todos := [], nextId := seed }

/-- The ids of the items of a collection, in sequence order. -/
def ids (l : List TodoItem) : List Nat := l.map (fun t => t.id)

/-- Modelled from the spec: `load()` of the Storage Adapter (spec section 4.1);
the backing file is modelled by the JSON array it encodes, `none` standing
for a missing file, which loads as the empty collection. -/
def load (file : Option (List TodoItem)) : List TodoItem := file.getD []

/-- Modelled from the spec: `save(collection)` of the Storage Adapter (spec
section 4.1): the file afterwards holds exactly the passed-in sequence. -/
def save (todos : List TodoItem) : Option (List TodoItem) := some todos

/-- The manager state paired with the backing file. -/
structure SystemState where
  mgr : ManagerState
  file : Option (List TodoItem)
  deriving Repr, DecidableEq

/-- Run one operation against manager plus storage: every successful mutation
persists the collection; a failed operation persists nothing; a bulk
operation on an empty collection is a no-op that performs no persist. -/
def sysApplyOp (sys : SystemState) : Op → SystemState
  | .createOp now raw =>
      match create sys.mgr now raw with
      | .ok (_, s') => { mgr := s', file := save s'.todos }
      | .error _ => sys
  | .toggleOp id =>
      match toggle sys.mgr id with
      | .ok (_, s') => { mgr := s', file := save s'.todos }
      | .error _ => sys
  | .editOp now id raw =>
      match edit sys.mgr now id raw with
      | .ok (_, s') => { mgr := s', file := save s'.todos }
      | .error _ => sys
  | .deleteOp id =>
      match deleteTodo sys.mgr id with
      | .ok s' => { mgr := s', file := save s'.todos }
      | .error _ => sys
  | .completeAllOp =>
      if sys.mgr.todos.isEmpty then sys
      else
        { mgr := (completeAll sys.mgr).2,
          file := save (completeAll sys.mgr).2.todos }
  | .uncompleteAllOp =>
      if sys.mgr.todos.isEmpty then sys
      else
        { mgr := (uncompleteAll sys.mgr).2,
          file := save (uncompleteAll sys.mgr).2.todos }

/-- Run a sequence of operations against manager plus storage. -/
def sysApplyOps (sys : SystemState) (ops : List Op) : SystemState :=
  ops.foldl sysApplyOp sys

/-- Process start: the collection is loaded once from storage (spec section 3
lifecycle), the file is left as it was. -/
def bootSystem (file : Option (List TodoItem)) (seed : Nat) : SystemState :=
  { mgr := { todos := load file, nextId := seed }, file := file }

/-- A request body issued by the browser client (src/public/app.js): a POST of
`{text}` to /api/todos or a PATCH of `{text}` to /api/todos/:id. -/
inductive ClientRequest where
  | post (text : String)
  | patch (id : Nat) (text : String)
  deriving Repr, DecidableEq

/-- `addTodo` of src/public/app.js, lines 29-58: trims the input value, sends
nothing when the trimmed text is empty, otherwise POSTs the trimmed text. -/
def addTodo (inputValue : String) : Option ClientRequest :=
  let text := jsTrim inputValue
  if text.isEmpty then none
  else some (.post text)

/-- `editTodo` of src/public/app.js, lines 103-142: `none` models a cancelled
prompt; an entry whose trim is empty sends nothing; otherwise the PATCH body
carries the raw, untrimmed prompt text. -/
def editTodo (id : Nat) (promptResult : Option String) : Option ClientRequest :=
  match promptResult with
  | none => none
  | some newText =>
      if (jsTrim newText).isEmpty then none
      else some (.patch id newText)

/-- A fixed sample item used by the concrete witnesses below. -/
def sampleItem : TodoItem :=
  { id := 1, text := "Buy milk", completed := false, createdAt := 0,
    updatedAt := none }

/-- A fixed sample one-item manager state used by the concrete witnesses. -/
def sampleState : ManagerState :=
  { todos := [sampleItem], nextId := 2 }

/-- A fixed sample two-item manager state used by the concrete witnesses. -/
def sampleState2 : ManagerState :=
  { todos := [sampleItem,
      { id := 2, text := "Second todo", completed := false, createdAt := 0,
        updatedAt := none }],
    nextId := 3 }

/-- A fixed sample state holding one completed and one uncompleted item,
mirroring the setup of src/__tests__/api.test.js lines 328-348. -/
def sampleStateMixed : ManagerState :=
  { todos := [
      { id := 1, text := "Already completed", completed := true,
        createdAt := 0, updatedAt := none },
      { id := 2, text := "Not completed", completed := false,
        createdAt := 0, updatedAt := none }],
    nextId := 3 }

/-- Claim C1: for every rawText whose trimmed value is non-empty, create
succeeds and returns an item whose text is the trimmed input, whose
completed is false, whose createdAt is the current time, with no updatedAt,
carrying the freshly allocated id, and the item is appended at the end of
the collection sequence. -/
theorem create_spec (s : ManagerState) (now : Nat) (raw : String)
    (h : (jsTrim raw).isEmpty = false) :
    create s now raw =
      .ok ({ id := s.nextId, text := jsTrim raw, completed := false,
             createdAt := now, updatedAt := none },
           { todos := s.todos ++
               [{ id := s.nextId, text := jsTrim raw, completed := false,
                  createdAt := now, updatedAt := none }],
             nextId := s.nextId + 1 }) := by
  simp [create, h]

theorem create_spec_witness :
    create (initState 5) 10 "  Spaced out todo  " =
      .ok ({ id := 5, text := "Spaced out todo", completed := false,
             createdAt := 10, updatedAt := none },
           { todos := [{ id := 5, text := "Spaced out todo",
                         completed := false, createdAt := 10,
                         updatedAt := none }],
             nextId := 6 }) := by
  rw [create_spec (initState 5) 10 "  Spaced out todo  " (by decide)]
  rfl

/-- Claim C2: for every rawText whose trimmed value is empty, create fails
with ValidationError "Todo text is required", and so does edit at any id
present in the collection; the error return carries no successor state, so
the collection is exactly what it was before the call. -/
theorem validation_rejects_empty (s : ManagerState) (now id : Nat)
    (raw : String) (hraw : (jsTrim raw).isEmpty = true)
    (hid : (s.todos.find? (fun t => t.id == id)).isSome = true) :
    create s now raw = .error validationResult ∧
    edit s now id raw = .error validationResult := by
  constructor
  · simp [create, hraw]
  · obtain ⟨item, hfind⟩ := Option.isSome_iff_exists.mp hid
    simp [edit, hfind, hraw]

theorem validation_rejects_empty_witness :
    create sampleState 7 "   " = .error validationResult ∧
    edit sampleState 7 1 "   " = .error validationResult :=
  validation_rejects_empty sampleState 7 1 "   " (by decide) (by decide)

/-- Claim C3: an id with no live item makes toggle, edit (with valid text) and
delete fail with NotFoundError "Todo not found" and leave the collection
unchanged (the error return carries no successor state); conversely a
present id never produces NotFoundError from these operations; and a
successful delete leaves no item with the deleted id. -/
theorem lookup_notFound_iff (s : ManagerState) (now id : Nat) (raw : String)
    (hraw : (jsTrim raw).isEmpty = false) :
    ((toggle s id = .error notFoundResult) ↔ ∀ t ∈ s.todos, t.id ≠ id) ∧
    ((edit s now id raw = .error notFoundResult) ↔
       ∀ t ∈ s.todos, t.id ≠ id) ∧
    ((deleteTodo s id = .error notFoundResult) ↔
       ∀ t ∈ s.todos, t.id ≠ id) ∧
    (∀ s', deleteTodo s id = .ok s' → ∀ t ∈ s'.todos, t.id ≠ id) := by
  have habs : (s.todos.find? (fun t => t.id == id) = none) ↔
      ∀ t ∈ s.todos, t.id ≠ id := by
    rw [List.find?_eq_none]; simp
  have habs2 : (s.todos.any (fun t => t.id == id) = false) ↔
      ∀ t ∈ s.todos, t.id ≠ id := by
    rw [List.any_eq_false]; simp
  have htoggle : toggle s id = .error notFoundResult ↔
      s.todos.find? (fun t => t.id == id) = none := by
    unfold toggle
    cases hf : s.todos.find? (fun t => t.id == id) <;> simp
  have hedit : edit s now id raw = .error notFoundResult ↔
      s.todos.find? (fun t => t.id == id) = none := by
    unfold edit
    cases hf : s.todos.find? (fun t => t.id == id) <;>
      simp [hraw, validationResult, notFoundResult]
  have hdel : deleteTodo s id = .error notFoundResult ↔
      s.todos.any (fun t => t.id == id) = false := by
    unfold deleteTodo
    cases ha : s.todos.any (fun t => t.id == id) <;> simp
  refine ⟨htoggle.trans habs, hedit.trans habs, hdel.trans habs2, ?_⟩
  intro s' hs' t ht
  unfold deleteTodo at hs'
  by_cases ha : s.todos.any (fun t => t.id == id) = true
  · rw [if_pos ha] at hs'
    cases hs'
    have := (List.mem_filter.mp ht).2
    simpa using this
  · rw [if_neg ha] at hs'
    cases hs'

theorem lookup_notFound_iff_witness :
    toggle sampleState 999999 = .error notFoundResult ∧
    deleteTodo sampleState 999999 = .error notFoundResult := by
  have h := lookup_notFound_iff sampleState 0 999999 "Updated text" (by decide)
  exact ⟨h.1.mpr (by decide), h.2.2.1.mpr (by decide)⟩

/-- Claim C4 counterexample: on a collection holding one already-completed
and one uncompleted item, completeAll returns count 2 while only one item
had completed = false beforehand, and uncompleteAll returns count 2 while
only one item had completed = true beforehand — exactly the behaviour the
test suite expects (src/__tests__/api.test.js lines 328-348 and 382-398).
So the returned count is not the number of previously unflipped items. -/
theorem bulk_count_counterexample :
    (completeAll sampleStateMixed).1.count = 2 ∧
    (sampleStateMixed.todos.filter (fun t => !t.completed)).length = 1 ∧
    (uncompleteAll sampleStateMixed).1.count = 2 ∧
    (sampleStateMixed.todos.filter (fun t => t.completed)).length = 1 := by
  decide

/-- Claim C4 (amended): completeAll on the empty collection returns count 0
with the distinct "No todos to complete" message; on a non-empty collection
it sets completed on every item and returns the total number of items in
the collection, regardless of how many were already completed;
uncompleteAll is symmetric. -/
theorem bulk_spec (s : ManagerState) :
    (s.todos = [] →
       completeAll s =
         ({ message := "No todos to complete", count := 0 }, s) ∧
       uncompleteAll s =
         ({ message := "No todos to uncomplete", count := 0 }, s)) ∧
    (s.todos ≠ [] →
       (completeAll s).1.message = "All todos completed" ∧
       (completeAll s).1.count = s.todos.length ∧
       (∀ t ∈ (completeAll s).2.todos, t.completed = true) ∧
       (uncompleteAll s).1.message = "All todos uncompleted" ∧
       (uncompleteAll s).1.count = s.todos.length ∧
       (∀ t ∈ (uncompleteAll s).2.todos, t.completed = false)) := by
  constructor
  · intro h
    simp [completeAll, uncompleteAll, h]
  · intro h
    have hne : s.todos.isEmpty = false := by
      cases hl : s.todos with
      | nil => exact absurd hl h
      | cons a l => rfl
    refine ⟨by simp [completeAll, hne], by simp [completeAll, hne], ?_,
      by simp [uncompleteAll, hne], by simp [uncompleteAll, hne], ?_⟩
    · intro t ht
      simp [completeAll, hne] at ht
      obtain ⟨a, _, rfl⟩ := ht
      rfl
    · intro t ht
      simp [uncompleteAll, hne] at ht
      obtain ⟨a, _, rfl⟩ := ht
      rfl

theorem bulk_spec_witness :
    completeAll (initState 3) =
      ({ message := "No todos to complete", count := 0 }, initState 3) ∧
    (completeAll sampleStateMixed).1.count = 2 := by
  refine ⟨((bulk_spec (initState 3)).1 rfl).1, ?_⟩
  rw [((bulk_spec sampleStateMixed).2 (by decide)).2.1]
  decide

/-- Finding by the predicate after an in-place update of the first match
returns that match updated, provided the update preserves the predicate. -/
theorem find?_updateFirst (p : TodoItem → Bool) (f : TodoItem → TodoItem)
    (hpf : ∀ t, p t = true → p (f t) = true) (l : List TodoItem) :
    (updateFirst p f l).find? p = (l.find? p).map f := by
  induction l with
  | nil => rfl
  | cons t ts ih =>
      by_cases hp : p t = true
      · simp [updateFirst, hp, List.find?_cons, hpf t hp]
      · have hp' : p t = false := by simpa using hp
        simp [updateFirst, hp', List.find?_cons, ih]

/-- An in-place update of the first match keeps the length. -/
theorem length_updateFirst (p : TodoItem → Bool) (f : TodoItem → TodoItem)
    (l : List TodoItem) : (updateFirst p f l).length = l.length := by
  induction l with
  | nil => rfl
  | cons t ts ih =>
      by_cases hp : p t = true
      · simp [updateFirst, hp]
      · have hp' : p t = false := by simpa using hp
        simp [updateFirst, hp', ih]

/-- An entry not matching the predicate is untouched, at its position, by an
in-place update of the first match. -/
theorem getElem?_updateFirst (p : TodoItem → Bool) (f : TodoItem → TodoItem)
    (l : List TodoItem) (i : Nat) (t : TodoItem)
    (ht : l[i]? = some t) (hp : p t = false) :
    (updateFirst p f l)[i]? = some t := by
  induction l generalizing i with
  | nil => simp at ht
  | cons a as ih =>
      cases i with
      | zero =>
          simp at ht
          subst ht
          simp [updateFirst, hp]
      | succ n =>
          simp at ht
          by_cases hpa : p a = true
          · simp [updateFirst, hpa, ht]
          · have hpa' : p a = false := by simpa using hpa
            simp [updateFirst, hpa', ih n ht]

/-- Claim C7: toggle is an involution on the completed flag: one toggle
returns the negation of the prior value, a second toggle returns the prior
value, and the item stored in the collection after the two toggles is
exactly the original item. -/
theorem toggle_involution (s : ManagerState) (id : Nat) (item : TodoItem)
    (hfind : s.todos.find? (fun t => t.id == id) = some item) :
    ∃ u₁ s₁, toggle s id = .ok (u₁, s₁) ∧
      u₁.completed = !item.completed ∧
      ∃ u₂ s₂, toggle s₁ id = .ok (u₂, s₂) ∧
        u₂.completed = item.completed ∧
        s₂.todos.find? (fun t => t.id == id) = some item := by
  have h1 : toggle s id =
      .ok ({ item with completed := !item.completed },
           { s with todos := (updateFirst (fun t => t.id == id)
               (fun t => { t with completed := !t.completed }) s.todos) }) := by
    simp [toggle, hfind]
  have hfind1 : (updateFirst (fun t => t.id == id)
      (fun t => { t with completed := !t.completed }) s.todos).find?
        (fun t => t.id == id) =
      some { item with completed := !item.completed } := by
    rw [find?_updateFirst (fun t => t.id == id)
      (fun t => { t with completed := !t.completed }) (fun t h => h) s.todos,
      hfind]
    rfl
  refine ⟨_, _, h1, rfl, ?_⟩
  have h2 : toggle { s with todos := (updateFirst (fun t => t.id == id)
      (fun t => { t with completed := !t.completed }) s.todos) } id =
      .ok ({ item with completed := !(!item.completed) },
           { s with todos := (updateFirst (fun t => t.id == id)
               (fun t => { t with completed := !t.completed })
               (updateFirst (fun t => t.id == id)
                 (fun t => { t with completed := !t.completed })
                 s.todos)) }) := by
    simp [toggle, hfind1]
  refine ⟨_, _, h2, by simp, ?_⟩
  dsimp only
  rw [find?_updateFirst (fun t => t.id == id)
    (fun t => { t with completed := !t.completed }) (fun t h => h) _, hfind1]
  cases item
  simp

theorem toggle_involution_witness :
    ∃ u₁ s₁, toggle sampleState 1 = .ok (u₁, s₁) ∧
      u₁.completed = !sampleItem.completed ∧
      ∃ u₂ s₂, toggle s₁ 1 = .ok (u₂, s₂) ∧
        u₂.completed = sampleItem.completed ∧
        s₂.todos.find? (fun t => t.id == 1) = some sampleItem :=
  toggle_involution sampleState 1 sampleItem (by decide)

/-- Claim C8: editing a present id with valid text keeps the item's id and
completed flag, always sets updatedAt, stores the trimmed text, and leaves
every item with a different id untouched at its position. -/
theorem edit_frame (s : ManagerState) (now id : Nat) (raw : String)
    (item : TodoItem)
    (hfind : s.todos.find? (fun t => t.id == id) = some item)
    (hraw : (jsTrim raw).isEmpty = false) :
    ∃ u s', edit s now id raw = .ok (u, s') ∧
      u.id = item.id ∧ u.completed = item.completed ∧
      u.updatedAt = some now ∧ u.text = jsTrim raw ∧
      s'.todos.length = s.todos.length ∧
      (∀ (i : Nat) (t : TodoItem), s.todos[i]? = some t → t.id ≠ id →
        s'.todos[i]? = some t) := by
  have heq : edit s now id raw =
      .ok ({ item with text := jsTrim raw, updatedAt := some now },
           { s with todos := (updateFirst (fun u => u.id == id)
               (fun u => { u with text := jsTrim raw, updatedAt := some now })
               s.todos) }) := by
    simp [edit, hfind, hraw]
  refine ⟨_, _, heq, rfl, rfl, rfl, rfl, length_updateFirst _ _ _, ?_⟩
  intro i t ht hne
  exact getElem?_updateFirst _ _ _ _ _ ht (by simpa using hne)

theorem edit_frame_witness :
    ∃ u s', edit sampleState 9 1 " Buy oat milk " = .ok (u, s') ∧
      u.id = sampleItem.id ∧ u.completed = sampleItem.completed ∧
      u.updatedAt = some 9 ∧ u.text = jsTrim " Buy oat milk " ∧
      s'.todos.length = sampleState.todos.length ∧
      (∀ (i : Nat) (t : TodoItem), sampleState.todos[i]? = some t →
        t.id ≠ 1 → s'.todos[i]? = some t) :=
  edit_frame sampleState 9 1 " Buy oat milk " sampleItem (by decide) (by decide)

/-- Removing the unique entry carrying a present id shortens the sequence by
exactly one. -/
theorem filter_not_id_length (l : List TodoItem) (id : Nat)
    (hnodup : (ids l).Nodup) (hmem : ∃ t ∈ l, t.id = id) :
    (l.filter (fun t => !(t.id == id))).length + 1 = l.length := by
  induction l with
  | nil => simp at hmem
  | cons a as ih =>
      rw [ids, List.map_cons, List.nodup_cons] at hnodup
      obtain ⟨hna, hnd⟩ := hnodup
      by_cases ha : a.id = id
      · have hall : ∀ t ∈ as, (!(t.id == id)) = true := by
          intro t htmem
          have hne : t.id ≠ a.id := by
            intro hcontra
            exact hna (by rw [← hcontra]; exact List.mem_map_of_mem _ htmem)
          simp [ha ▸ hne]
        have hfa : (a.id == id) = true := by simp [ha]
        simp [List.filter_cons, hfa, List.filter_eq_self.mpr hall]
      · have hfa : (!(a.id == id)) = true := by simp [ha]
        have hmem' : ∃ t ∈ as, t.id = id := by
          obtain ⟨t, htmem, htid⟩ := hmem
          rcases List.mem_cons.mp htmem with h | h
          · exact absurd (h ▸ htid) ha
          · exact ⟨t, h, htid⟩
        have hih := ih hnd hmem'
        simp [List.filter_cons, hfa]
        omega

/-- Claim C9: on a collection with at least two items and pairwise distinct
ids, deleting a present id succeeds, removes exactly that one item, keeps
every other item, and preserves the survivors' relative order. -/
theorem delete_frame (s : ManagerState) (id : Nat)
    (hnodup : (ids s.todos).Nodup) (_hlen : 2 ≤ s.todos.length)
    (hmem : ∃ t ∈ s.todos, t.id = id) :
    ∃ s', deleteTodo s id = .ok s' ∧
      s'.todos = s.todos.filter (fun t => !(t.id == id)) ∧
      s'.todos.length + 1 = s.todos.length ∧
      List.Sublist s'.todos s.todos ∧
      (∀ t ∈ s.todos, t.id ≠ id → t ∈ s'.todos) := by
  have hany : s.todos.any (fun t => t.id == id) = true := by
    rw [List.any_eq_true]
    obtain ⟨t, ht, hid⟩ := hmem
    exact ⟨t, ht, by simp [hid]⟩
  have hdel : deleteTodo s id =
      .ok { s with todos := s.todos.filter (fun t => !(t.id == id)) } := by
    simp [deleteTodo, hany]
  refine ⟨_, hdel, rfl, ?_, ?_, ?_⟩
  · exact filter_not_id_length s.todos id hnodup hmem
  · exact List.filter_sublist s.todos
  · intro t ht hne
    exact List.mem_filter.mpr ⟨ht, by simp [hne]⟩

theorem delete_frame_witness :
    ∃ s', deleteTodo sampleState2 1 = .ok s' ∧
      s'.todos = sampleState2.todos.filter (fun t => !(t.id == 1)) ∧
      s'.todos.length + 1 = sampleState2.todos.length ∧
      List.Sublist s'.todos sampleState2.todos ∧
      (∀ t ∈ sampleState2.todos, t.id ≠ 1 → t ∈ s'.todos) :=
  delete_frame sampleState2 1 (by decide) (by decide) (by decide)

/-- The id invariant: every live id is below the generator counter and the
ids are strictly increasing along the sequence. -/
def invariantHolds (s : ManagerState) : Prop :=
  (∀ i ∈ ids s.todos, i < s.nextId) ∧ (ids s.todos).Pairwise (· < ·)

/-- An in-place update that keeps each item's id keeps the id sequence. -/
theorem ids_updateFirst (p : TodoItem → Bool) (f : TodoItem → TodoItem)
    (hf : ∀ t, (f t).id = t.id) (l : List TodoItem) :
    ids (updateFirst p f l) = ids l := by
  induction l with
  | nil => rfl
  | cons t ts ih =>
      by_cases hp : p t = true
      · simp [updateFirst, hp, ids, hf]
      · have hp' : p t = false := by simpa using hp
        simp only [updateFirst, hp', Bool.false_eq_true, if_false, ids,
          List.map_cons]
        rw [show (updateFirst p f ts).map (fun t => t.id) = ids (updateFirst p f ts) from rfl,
          ih]
        rfl

/-- A map that keeps each item's id keeps the id sequence. -/
theorem ids_map (g : TodoItem → TodoItem) (hg : ∀ t, (g t).id = t.id)
    (l : List TodoItem) : ids (l.map g) = ids l := by
  simp only [ids, List.map_map]
  exact List.map_congr_left (fun t _ => hg t)

/-- The id invariant only looks at the id sequence and the counter. -/
theorem invariant_of_ids_eq (s s' : ManagerState)
    (hids : ids s'.todos = ids s.todos) (hnext : s'.nextId = s.nextId)
    (h : invariantHolds s) : invariantHolds s' := by
  obtain ⟨hb, hs⟩ := h
  exact ⟨by rw [hids, hnext]; exact hb, by rw [hids]; exact hs⟩

/-- The id invariant survives dropping items. -/
theorem invariant_of_sublist (s s' : ManagerState)
    (hsub : List.Sublist (ids s'.todos) (ids s.todos))
    (hnext : s'.nextId = s.nextId)
    (h : invariantHolds s) : invariantHolds s' := by
  obtain ⟨hb, hs⟩ := h
  refine ⟨?_, hs.sublist hsub⟩
  intro i hi
  rw [hnext]
  exact hb i (hsub.mem hi)

/-- Every operation preserves the id invariant. -/
theorem invariant_applyOp (s : ManagerState) (op : Op)
    (h : invariantHolds s) : invariantHolds (applyOp s op) := by
  obtain ⟨hbound, hsorted⟩ := h
  cases op with
  | createOp now raw =>
      by_cases hr : (jsTrim raw).isEmpty = true
      · have : applyOp s (.createOp now raw) = s := by
          simp [applyOp, create, hr]
        rw [this]; exact ⟨hbound, hsorted⟩
      · have hr' : (jsTrim raw).isEmpty = false := by simpa using hr
        have heq : applyOp s (.createOp now raw) =
            { todos := s.todos ++
                [{ id := s.nextId, text := jsTrim raw, completed := false,
                   createdAt := now, updatedAt := none }],
              nextId := s.nextId + 1 } := by
          simp [applyOp, create, hr']
        rw [heq]
        constructor
        · intro i hi
          simp only [ids, List.map_append, List.mem_append, List.map_cons,
            List.map_nil, List.mem_cons, List.not_mem_nil, or_false] at hi
          rcases hi with hi | hi
          · exact Nat.lt_succ_of_lt (hbound i hi)
          · subst hi; exact Nat.lt_succ_self _
        · simp only [ids, List.map_append, List.map_cons, List.map_nil]
          rw [List.pairwise_append]
          refine ⟨hsorted, List.pairwise_singleton _ _, ?_⟩
          intro a ha b hb
          simp only [List.mem_cons, List.not_mem_nil, or_false] at hb
          subst hb
          exact hbound a ha
  | toggleOp id =>
      cases hf : s.todos.find? (fun t => t.id == id) with
      | none =>
          have heq : applyOp s (.toggleOp id) = s := by
            simp [applyOp, toggle, hf]
          rw [heq]; exact ⟨hbound, hsorted⟩
      | some item =>
          have heq : applyOp s (.toggleOp id) =
              { s with todos := (updateFirst (fun t => t.id == id)
                  (fun t => { t with completed := !t.completed })
                  s.todos) } := by
            simp [applyOp, toggle, hf]
          rw [heq]
          refine invariant_of_ids_eq s _ ?_ rfl ⟨hbound, hsorted⟩
          exact ids_updateFirst (fun t => t.id == id)
            (fun t => { t with completed := !t.completed })
            (fun t => rfl) s.todos
  | editOp now id raw =>
      cases hf : s.todos.find? (fun t => t.id == id) with
      | none =>
          have heq : applyOp s (.editOp now id raw) = s := by
            simp [applyOp, edit, hf]
          rw [heq]; exact ⟨hbound, hsorted⟩
      | some item =>
          by_cases hr : (jsTrim raw).isEmpty = true
          · have heq : applyOp s (.editOp now id raw) = s := by
              simp [applyOp, edit, hf, hr]
            rw [heq]; exact ⟨hbound, hsorted⟩
          · have hr' : (jsTrim raw).isEmpty = false := by simpa using hr
            have heq : applyOp s (.editOp now id raw) =
                { s with todos := (updateFirst (fun u => u.id == id)
                    (fun u => { u with text := jsTrim raw, updatedAt := some now })
                    s.todos) } := by
              simp [applyOp, edit, hf, hr']
            rw [heq]
            refine invariant_of_ids_eq s _ ?_ rfl ⟨hbound, hsorted⟩
            exact ids_updateFirst (fun u => u.id == id)
              (fun u => { u with text := jsTrim raw, updatedAt := some now })
              (fun t => rfl) s.todos
  | deleteOp id =>
      by_cases ha : s.todos.any (fun t => t.id == id) = true
      · have heq : applyOp s (.deleteOp id) =
            { s with todos := s.todos.filter (fun t => !(t.id == id)) } := by
          simp [applyOp, deleteTodo, ha]
        rw [heq]
        refine invariant_of_sublist s _ ?_ rfl ⟨hbound, hsorted⟩
        exact (List.filter_sublist s.todos).map (fun t => t.id)
      · have ha' : s.todos.any (fun t => t.id == id) = false := by
          simpa using ha
        have heq : applyOp s (.deleteOp id) = s := by
          simp [applyOp, deleteTodo, ha']
        rw [heq]; exact ⟨hbound, hsorted⟩
  | completeAllOp =>
      by_cases he : s.todos.isEmpty = true
      · have heq : applyOp s .completeAllOp = s := by
          simp [applyOp, completeAll, he]
        rw [heq]; exact ⟨hbound, hsorted⟩
      · have he' : s.todos.isEmpty = false := by simpa using he
        have heq : applyOp s .completeAllOp =
            { s with todos :=
                (s.todos.map (fun t => { t with completed := true })) } := by
          simp [applyOp, completeAll, he']
        rw [heq]
        refine invariant_of_ids_eq s _ ?_ rfl ⟨hbound, hsorted⟩
        exact ids_map (fun t => { t with completed := true })
          (fun t => rfl) s.todos
  | uncompleteAllOp =>
      by_cases he : s.todos.isEmpty = true
      · have heq : applyOp s .uncompleteAllOp = s := by
          simp [applyOp, uncompleteAll, he]
        rw [heq]; exact ⟨hbound, hsorted⟩
      · have he' : s.todos.isEmpty = false := by simpa using he
        have heq : applyOp s .uncompleteAllOp =
            { s with todos :=
                (s.todos.map (fun t => { t with completed := false })) } := by
          simp [applyOp, uncompleteAll, he']
        rw [heq]
        refine invariant_of_ids_eq s _ ?_ rfl ⟨hbound, hsorted⟩
        exact ids_map (fun t => { t with completed := false })
          (fun t => rfl) s.todos

/-- The id invariant is preserved by whole operation sequences. -/
theorem invariant_applyOps (s : ManagerState) (ops : List Op)
    (h : invariantHolds s) : invariantHolds (applyOps s ops) := by
  induction ops generalizing s with
  | nil => exact h
  | cons op rest ih =>
      rw [applyOps, List.foldl_cons]
      exact ih (applyOp s op) (invariant_applyOp s op h)

/-- Claim C5: at every state reachable from process start, the ids of the
live items are pairwise distinct, and they appear in strictly increasing
order matching creation order. -/
theorem reachable_ids_unique (seed : Nat) (ops : List Op) :
    (ids (applyOps (initState seed) ops).todos).Pairwise (· < ·) ∧
    (ids (applyOps (initState seed) ops).todos).Nodup := by
  have h := invariant_applyOps (initState seed) ops
    ⟨by simp [initState, ids], by simp [initState, ids]⟩
  exact ⟨h.2, h.2.imp Nat.ne_of_lt⟩

/-- One system step keeps the file contents equal to the in-memory list. -/
theorem sysApplyOp_roundtrip (sys : SystemState) (op : Op)
    (h : load sys.file = sys.mgr.todos) :
    load (sysApplyOp sys op).file = (sysApplyOp sys op).mgr.todos := by
  cases op with
  | createOp now raw =>
      cases hc : create sys.mgr now raw with
      | error e => simpa [sysApplyOp, hc] using h
      | ok pr => simp [sysApplyOp, hc, load, save]
  | toggleOp id =>
      cases hc : toggle sys.mgr id with
      | error e => simpa [sysApplyOp, hc] using h
      | ok pr => simp [sysApplyOp, hc, load, save]
  | editOp now id raw =>
      cases hc : edit sys.mgr now id raw with
      | error e => simpa [sysApplyOp, hc] using h
      | ok pr => simp [sysApplyOp, hc, load, save]
  | deleteOp id =>
      cases hc : deleteTodo sys.mgr id with
      | error e => simpa [sysApplyOp, hc] using h
      | ok s' => simp [sysApplyOp, hc, load, save]
  | completeAllOp =>
      by_cases he : sys.mgr.todos.isEmpty = true
      · simpa [sysApplyOp, he] using h
      · have he' : sys.mgr.todos.isEmpty = false := by simpa using he
        simp [sysApplyOp, he', load, save]
  | uncompleteAllOp =>
      by_cases he : sys.mgr.todos.isEmpty = true
      · simpa [sysApplyOp, he] using h
      · have he' : sys.mgr.todos.isEmpty = false := by simpa using he
        simp [sysApplyOp, he', load, save]

/-- Claim C6: after any sequence of operations starting from process boot,
loading the collection back from storage yields exactly the in-memory
ordered sequence of items, field for field. -/
theorem storage_roundtrip (file : Option (List TodoItem)) (seed : Nat)
    (ops : List Op) :
    load (sysApplyOps (bootSystem file seed) ops).file =
      (sysApplyOps (bootSystem file seed) ops).mgr.todos := by
  suffices H : ∀ sys, load sys.file = sys.mgr.todos →
      load (sysApplyOps sys ops).file = (sysApplyOps sys ops).mgr.todos by
    exact H _ rfl
  induction ops with
  | nil => intro sys h; exact h
  | cons op rest ih =>
      intro sys h
      rw [sysApplyOps, List.foldl_cons]
      exact ih (sysApplyOp sys op) (sysApplyOp_roundtrip sys op h)

/-- Claim C10: in the browser client, addTodo posts the already-trimmed input
text, editTodo patches the raw untrimmed prompt text (trimming is used only
for the emptiness check), and neither function issues a request when the
trimmed text is empty. -/
theorem client_request_bodies (inputValue : String) (id : Nat)
    (promptText : String)
    (hadd : (jsTrim inputValue).isEmpty = false)
    (hedit : (jsTrim promptText).isEmpty = false) :
    addTodo inputValue = some (.post (jsTrim inputValue)) ∧
    editTodo id (some promptText) = some (.patch id promptText) ∧
    (∀ v, (jsTrim v).isEmpty = true → addTodo v = none) ∧
    (∀ v, (jsTrim v).isEmpty = true → editTodo id (some v) = none) := by
  refine ⟨?_, ?_, ?_, ?_⟩
  · simp [addTodo, hadd]
  · simp [editTodo, hedit]
  · intro v hv; simp [addTodo, hv]
  · intro v hv; simp [editTodo, hv]

theorem client_request_bodies_witness :
    addTodo " Buy milk " = some (.post "Buy milk") ∧
    editTodo 1 (some " Buy oat milk ") = some (.patch 1 " Buy oat milk ") := by
  have h := client_request_bodies " Buy milk " 1 " Buy oat milk "
    (by decide) (by decide)
  exact ⟨by rw [h.1]; rfl, h.2.1⟩

end TodoApp
